import Mathlib

/-!
Verification development for the FinShield credit-risk API
(`api/app.py`).  The pipeline functions `normalize_strings`,
`cast_schema`, `validate_dtypes`, `band`, `pd_to_score` and the
`predict` orchestration are shallowly embedded over an explicit cell
type.  Machine floats are modelled by exact rationals; a pandas
DataFrame is modelled column-major as a list of named cell columns
together with its row count.
-/

namespace FinShield

/-- A cell of the tabular batch: a JSON/pandas value is a number, a
piece of text, or missing (`None`/`NaN`).  This is the closed tagged
union `{Number, Text, Missing}` the records of `api/app.py` range
over. -/
inductive Cell where
  | num (q : ℚ)
  | str (s : String)
  | missing
deriving DecidableEq, Repr

/-- Is the cell a piece of text?  A pandas column holding at least one
such cell has `object` dtype. -/
def cellIsStr : Cell → Bool
  | Cell.str _ => true
  | _ => false

/-- Whitespace test used by Python `str.strip()`. -/
def isSpace (c : Char) : Bool := c.isWhitespace

/-- Python `str.lstrip()` on a character list. -/
def lstrip (l : List Char) : List Char := l.dropWhile isSpace

/-- Python `str.rstrip()` on a character list. -/
def rstrip (l : List Char) : List Char := (l.reverse.dropWhile isSpace).reverse

/-- Python `str.strip()` on a character list. -/
def pyStrip (l : List Char) : List Char := rstrip (lstrip l)

/-- Python `str.strip()` on a string (pandas `.str.strip()`). -/
def pyStripS (s : String) : String := ⟨pyStrip s.data⟩

/-- The placeholder sentinels of `normalize_strings`
(`app.py` line 52). -/
def placeholderList : List String := ["", "none", "null", "nan", "na", "n/a"]

/-- Python `str.lower()` (characterwise lowercasing). -/
def lowerS (s : String) : String := ⟨s.data.map Char.toLower⟩

/-- Case-insensitive placeholder test applied to an
already-stripped string (`s.str.lower().isin(placeholders)`,
`app.py` line 56). -/
def isPlaceholder (t : String) : Bool := placeholderList.contains (lowerS t)

/-- Numeric value of a digit character. -/
def digitVal (c : Char) : ℕ := c.toNat - 48

/-- Value of a digit string, most significant first. -/
def natOfDigits (l : List Char) : ℕ := l.foldl (fun n c => 10 * n + digitVal c) 0

/-- Consume an optional leading sign; returns (isNegative, rest). -/
def splitSign : List Char → Bool × List Char
  | '-' :: r => (true, r)
  | '+' :: r => (false, r)
  | l => (false, l)

/-- The syntactic pieces of a recognized float literal: sign, integer
digits, fraction digits, exponent sign and exponent digits. -/
structure FloatParts where
  neg : Bool
  ip : List Char
  fp : List Char
  eneg : Bool
  ed : List Char
deriving DecidableEq, Repr

/-- Recognize the optional exponent suffix (`e`/`E`, optional sign,
digits); the whole remainder must be consumed. -/
def parseExpChars : List Char → Option (Bool × List Char)
  | [] => some (false, [])
  | c :: r =>
    if c == 'e' || c == 'E' then
      let sr := splitSign r
      let ds := sr.2.takeWhile Char.isDigit
      let rest := sr.2.dropWhile Char.isDigit
      if ds.isEmpty || !rest.isEmpty then none else some (sr.1, ds)
    else none

/-- Recognize a float literal `[sign]digits[.digits][exponent]`; at
least one mantissa digit is required. -/
def parseFloatParts (l : List Char) : Option FloatParts :=
  let sr := splitSign l
  let ip := sr.2.takeWhile Char.isDigit
  let r1 := sr.2.dropWhile Char.isDigit
  match r1 with
  | '.' :: r2 =>
    let fp := r2.takeWhile Char.isDigit
    let r3 := r2.dropWhile Char.isDigit
    if ip.isEmpty && fp.isEmpty then none
    else (parseExpChars r3).map (fun e => ⟨sr.1, ip, fp, e.1, e.2⟩)
  | _ =>
    if ip.isEmpty then none
    else (parseExpChars r1).map (fun e => ⟨sr.1, ip, [], e.1, e.2⟩)

/-- The rational value denoted by a recognized float literal. -/
def ratOfParts (p : FloatParts) : ℚ :=
  let m := (natOfDigits p.ip : ℚ) + (natOfDigits p.fp : ℚ) / 10 ^ p.fp.length
  let v := if p.eneg then m / 10 ^ natOfDigits p.ed else m * 10 ^ natOfDigits p.ed
  if p.neg then -v else v

/-- The numeric-string parser behind `pd.to_numeric(errors="coerce")`
on a single cell: an optional sign, a decimal mantissa and an optional
exponent, with surrounding whitespace tolerated.  Returns `none` where
pandas would produce `NaN` (the special spellings `inf`/`nan`, which
cannot live in `ℚ` and never reach a numeric result in this pipeline,
are treated as unparsable). -/
def parseNumeric (s : String) : Option ℚ :=
  (parseFloatParts (pyStrip s.data)).map ratOfParts

/-- Removal of the currency/thousands characters `₹`, `$`, `,`
(`s.str.replace(r"[₹$,]", "", regex=True)`, `app.py` line 62). -/
def removeMoneyChars (s : String) : String :=
  ⟨s.data.filter (fun c => !(c == '₹' || c == '$' || c == ','))⟩

/-- Step 1 of `normalize_strings` (`app.py` lines 53-56) on one cell of
an object column: strip, then map case-insensitive placeholders to
missing.  A numeric cell is stringified by `astype(str)` and parsed
back by step 2; since a float's repr is never a placeholder and
round-trips exactly, the composite effect is the identity, which is how
it is modelled here. -/
def step1Cell : Cell → Cell
  | Cell.str v =>
    let t := pyStripS v
    if isPlaceholder t then Cell.missing else Cell.str t
  | c => c

/-- Does the candidate end with `%` (`s2.str.endswith("%")`)? -/
def endsWithPercent (s : String) : Bool := s.data.getLast? == some '%'

/-- `str.removesuffix("%")`, applied when the `%` flag is set: drop
the final character. -/
def dropLastChar (s : String) : String := ⟨s.data.dropLast⟩

/-- The candidate-parse of step 2 of `normalize_strings`
(`app.py` lines 61-66): strip, remove `₹`/`$`/`,`, detect and remove a
trailing `%`, parse, and scale by 1/100 only when the `%` flag was set
and the parse succeeded. -/
def step2Parse (v : String) : Option ℚ :=
  let t := pyStripS v
  let t2 := removeMoneyChars t
  if endsWithPercent t2 then (parseNumeric (dropLastChar t2)).map (fun q => q / 100)
  else parseNumeric t2

/-- Step 2 of `normalize_strings` (`app.py` lines 59-67) on one cell:
replace the cell by the parsed number when the candidate parses,
otherwise keep the cell unchanged (`nums.where(nums.notna(), out[col])`).
A missing cell stringifies to `"nan"`, which `to_numeric` sends back to
`NaN`, so it stays missing. -/
def step2Cell : Cell → Cell
  | Cell.str v =>
    match step2Parse v with
    | some q => Cell.num q
    | none => Cell.str v
  | c => c

/-- The per-cell effect of `normalize_strings`: placeholder pass then
numeric-conversion pass. -/
def normalizeCell (c : Cell) : Cell := step2Cell (step1Cell c)

/-- The effect of `normalize_strings` on one column.  Both passes of
the source iterate only over `object`-dtype columns, i.e. columns
holding at least one text cell; on a purely numeric column both passes
are skipped (and would be the identity anyway). -/
def normalizeCol (cells : List Cell) : List Cell :=
  if cells.any cellIsStr then (cells.map step1Cell).map step2Cell else cells

/-- The declared numeric feature names (`NUMERIC_FEATURES`,
`app.py` lines 19-26). -/
def NUMERIC_FEATURES : List String :=
  ["age", "avg_recharge_amt", "recharge_freq", "data_usage_MB", "calls_peak_hours",
   "avg_days_late", "payment_delay_ratio", "avg_payment_due", "avg_payment_made",
   "payment_to_due_ratio", "sms_bank_count", "sms_otp_count", "sms_other_count",
   "sms_promotional_count", "sms_upi_count", "sms_fin_txn_count",
   "cart_abandonment_rate", "avg_order_value", "return_rate", "geo_variance_score",
   "months_active", "employer_count"]

/-- The hardcoded categorical fallback used when the model artifact
exposes no feature order (`app.py` lines 27-29). -/
def defaultCategorical : List String := ["location", "employment_type", "salary_band"]

/-- `CATEGORICAL_FEATURES` (`app.py` line 27): the declared feature
order minus the numeric names when the order is known, else the
fallback.  The feature order `fo` is read from the model artifact at
startup and is a parameter of the embedding. -/
def categoricalFeatures (fo : List String) : List String :=
  if fo.isEmpty then defaultCategorical
  else fo.filter (fun c => !NUMERIC_FEATURES.contains c)

/-- Numeric cast of one cell (`app.py` lines 75-78):
`pd.to_numeric(errors="coerce").astype("float64")` followed by
`fillna(0.0)` — numbers stay, parsable text becomes its number,
unparsable text and missing become 0.0. -/
def castNumCell : Cell → Cell
  | Cell.num q => Cell.num q
  | Cell.str s =>
    match parseNumeric s with
    | some q => Cell.num q
    | none => Cell.num 0
  | Cell.missing => Cell.num 0

/-- Categorical cast of one cell (`app.py` lines 82-84):
`astype("object")` then missing becomes the literal `"unknown"`;
non-missing values (text or numbers) are kept. -/
def castCatCell : Cell → Cell
  | Cell.missing => Cell.str "unknown"
  | c => c

/-- `cast_schema` on one named column.  The source processes the
numeric columns and the categorical columns in two separate sorted
loops; since the two name sets are disjoint and each column is touched
independently, this is the same per-column function (the sorted
processing order has no observable effect).  Columns mentioned by
neither set pass through. -/
def castCol (fo : List String) (name : String) (cells : List Cell) : List Cell :=
  if NUMERIC_FEATURES.contains name then cells.map castNumCell
  else if (categoricalFeatures fo).contains name then cells.map castCatCell
  else cells

/-- Does a column have a numeric dtype for the purpose of
`np.issubdtype(df[col].dtype, np.number)`?  A post-`cast_schema`
numeric column is `float64` with no text cells; a column holding text
is `object`.  (A never-cast all-missing column's pandas dtype depends
on its construction history, which a cell list does not record; no
claim exercises that case.) -/
def isNumericDtype (cells : List Cell) : Bool := cells.all (fun c => !cellIsStr c)

/-- The `str(df[col].dtype)` rendering used in the TypeMismatch
payload. -/
def dtypeStr (cells : List Cell) : String :=
  if isNumericDtype cells then "float64" else "object"

/-- `band` (`app.py` lines 32-37). -/
def band (p : ℚ) : String :=
  if p < 0.10 then "Very Low"
  else if p < 0.20 then "Low"
  else if p < 0.35 then "Medium"
  else if p < 0.50 then "High"
  else "Very High"

/-- Round half to even, the rounding rule of Python 3's built-in
`round` used in `pd_to_score`. -/
def roundHalfEven (x : ℚ) : ℤ :=
  if Int.fract x < 1 / 2 then ⌊x⌋
  else if 1 / 2 < Int.fract x then ⌊x⌋ + 1
  else if Even ⌊x⌋ then ⌊x⌋ else ⌊x⌋ + 1

/-- `pd_to_score` (`app.py` lines 39-41):
`900 - int(round(pd_ * 600))` clamped by `max(300, min(900, score))`. -/
def pd_to_score (p : ℚ) : ℤ :=
  max 300 (min 900 (900 - roundHalfEven (p * 600)))

/-- A raw input record: one JSON row, a key/value association list
(Python dict; lookups take the first binding). -/
abbrev Record := List (String × Cell)

/-- The DataFrame model: the row count together with the named
columns, in column order.  `pd.DataFrame` tracks its length even when
it has no columns, hence the explicit `nrows`. -/
structure DF where
  nrows : ℕ
  cols : List (String × List Cell)
deriving DecidableEq, Repr

/-- The column names of a DataFrame, in order. -/
def DF.columns (df : DF) : List String := df.cols.map Prod.fst

/-- Column lookup by name (first match, as with unique pandas
columns). -/
def DF.getCol (df : DF) (n : String) : Option (List Cell) := List.lookup n df.cols

/-- Fold one record's keys into the running column-name list, keeping
first-appearance order and dropping duplicates — the column inference
of `pd.DataFrame(list_of_dicts)`. -/
def addRowKeys (acc : List String) (r : Record) : List String :=
  r.foldl (fun a kv => if a.contains kv.1 then a else a ++ [kv.1]) acc

/-- The inferred column names of a list of records. -/
def colNamesOf (rows : List Record) : List String := rows.foldl addRowKeys []

/-- `pd.DataFrame(req.rows)` (`app.py` line 139): columns in
first-appearance order; a record lacking a column holds a missing
value there. -/
def toDF (rows : List Record) : DF :=
  ⟨rows.length,
   (colNamesOf rows).map (fun n => (n, rows.map (fun r => (List.lookup n r).getD Cell.missing)))⟩

/-- The accidental ground-truth column names dropped by `predict`
(`app.py` line 142). -/
def labelCols : List String := ["default_flag", "target", "label"]

/-- The label-dropping step (`app.py` lines 141-144). -/
def dropLabels (df : DF) : DF :=
  ⟨df.nrows, df.cols.filter (fun p => !labelCols.contains p.1)⟩

/-- `normalize_strings` on a whole DataFrame (`app.py` lines 43-68). -/
def normalize_strings (df : DF) : DF :=
  ⟨df.nrows, df.cols.map (fun p => (p.1, normalizeCol p.2))⟩

/-- `cast_schema` on a whole DataFrame (`app.py` lines 70-86). -/
def cast_schema (fo : List String) (df : DF) : DF :=
  ⟨df.nrows, df.cols.map (fun p => (p.1, castCol fo p.1 p.2))⟩

/-- `df[FEATURE_ORDER]` (`app.py` line 154): select exactly the listed
columns in that order, dropping extras.  Only invoked after the
missing-column check, so every name is present and the `getD` default
is never used. -/
def selectCols (fo : List String) (df : DF) : DF :=
  ⟨df.nrows, fo.map (fun n => (n, (df.getCol n).getD []))⟩

/-- The structured errors of the request path, one constructor per
`HTTPException` site: no rows (line 137), missing columns in `predict`
(line 153, payload also carries the expected order), missing columns
in `validate_dtypes` (line 92, payload carries only the missing
names), non-numeric numeric columns (line 100, payload carries column
names and observed dtypes), and a failure inside the scoring adapter
(line 172). -/
inductive Err where
  | emptyInput
  | missingColumns (missing : List String) (expected : List String)
  | missingColumnsValidate (missing : List String)
  | typeMismatch (wrong : List (String × String))
  | inference (msg : String)
deriving DecidableEq, Repr

/-- `validate_dtypes` (`app.py` lines 88-100).  The source iterates
the Python set `NUMERIC_FEATURES & set(df.columns)` in unspecified
order; here the offending columns are listed in DataFrame column
order. -/
def validate_dtypes (fo : List String) (df : DF) : Except Err Unit :=
  let missing := if fo.isEmpty then [] else fo.filter (fun c => !(DF.columns df).contains c)
  if !missing.isEmpty then Except.error (Err.missingColumnsValidate missing)
  else
    let wrong :=
      (df.cols.filter (fun p => NUMERIC_FEATURES.contains p.1 && !isNumericDtype p.2)).map
        (fun p => (p.1, dtypeStr p.2))
    if !wrong.isEmpty then Except.error (Err.typeMismatch wrong) else Except.ok ()

/-- One entry of the response (`PredictionResult`, `app.py`
lines 106-110). -/
structure Result where
  user_id : String
  pd : ℚ
  risk_band : String
  credit_score : ℤ
deriving DecidableEq, Repr

/-- `str(value)` on a record value, as used for the identifier.  The
rendering chosen for a numeric value stands in for Python's exact
float repr; `str(None)` is `"None"`. -/
def cellToStr : Cell → String
  | Cell.str s => s
  | Cell.num q => toString q
  | Cell.missing => "None"

/-- `str(row.get("user_id", ""))` (`app.py` line 178). -/
def userIdOf (r : Record) : String :=
  match List.lookup "user_id" r with
  | some c => cellToStr c
  | none => ""

/-- One response row (`app.py` lines 177-182). -/
def mkResult (pr : Record × ℚ) : Result :=
  { user_id := userIdOf pr.1, pd := pr.2, risk_band := band pr.2,
    credit_score := pd_to_score pr.2 }

/-- The scoring adapter: the pretrained model consumed as a black box
producing one probability per row of the validated matrix (the
positive-class column of `predict_proba`, or the clipped `predict`
output).  A raised exception is an error message. -/
abbrev Scorer := DF → Except String (List ℚ)

/-- The required columns absent after normalization
(`[c for c in FEATURE_ORDER if c not in df.columns]`,
`app.py` line 151). -/
def missingOf (fo : List String) (rows : List Record) : List String :=
  fo.filter (fun c => !(DF.columns (normalize_strings (dropLabels (toDF rows)))).contains c)

/-- Steps 0-3 of `predict` (`app.py` lines 139-157): build the frame,
drop label columns, normalize, enforce the feature order when known
(erroring on missing columns), and cast to the strict schema. -/
def preprocess (fo : List String) (rows : List Record) : Except Err DF :=
  let df2 := normalize_strings (dropLabels (toDF rows))
  if fo.isEmpty then Except.ok (cast_schema fo df2)
  else
    if (missingOf fo rows).isEmpty then Except.ok (cast_schema fo (selectCols fo df2))
    else Except.error (Err.missingColumns (missingOf fo rows) fo)

/-- The `predict` operation (`app.py` lines 134-183): reject an empty
batch, preprocess, validate, invoke the scoring adapter, and zip the
original rows with the per-row probabilities into results. -/
def predict (fo : List String) (scorer : Scorer) (rows : List Record) :
    Except Err (List Result) :=
  if rows.isEmpty then Except.error Err.emptyInput
  else
    match preprocess fo rows with
    | Except.error e => Except.error e
    | Except.ok df4 =>
      match validate_dtypes fo df4 with
      | Except.error e => Except.error e
      | Except.ok _ =>
        match scorer df4 with
        | Except.error msg => Except.error (Err.inference msg)
        | Except.ok ps => Except.ok ((rows.zip ps).map mkResult)

/-- Is the outcome a TypeMismatch failure? -/
def isTypeMismatchErr : Except Err (List Result) → Bool
  | Except.error (Err.typeMismatch _) => true
  | _ => false

/-- A concrete scoring adapter for witnesses: probability 0 for every
row. -/
def wScorer : Scorer := fun df => Except.ok (List.replicate df.nrows 0)

/-- A concrete one-row batch for witnesses. -/
def wRows : List Record := [[("user_id", Cell.str "u1")]]

/-! ### Lemmas about stripping and per-cell normalization -/

lemma rstrip_eq_rdropWhile (l : List Char) : rstrip l = List.rdropWhile isSpace l := rfl

lemma rstrip_idem (l : List Char) : rstrip (rstrip l) = rstrip l := by
  simp only [rstrip_eq_rdropWhile]
  exact List.rdropWhile_idempotent _ _

/-- Left-stripping is the identity on an already left-stripped list,
even after right-stripping it. -/
lemma lstrip_rstrip_lstrip (l : List Char) :
    lstrip (rstrip (lstrip l)) = rstrip (lstrip l) := by
  simp only [lstrip, rstrip_eq_rdropWhile]
  rw [List.dropWhile_eq_self_iff]
  intro hl
  have hpre := List.rdropWhile_prefix isSpace (l.dropWhile isSpace)
  have hlen : 0 < (l.dropWhile isSpace).length := lt_of_lt_of_le hl hpre.length_le
  have hget : (List.rdropWhile isSpace (l.dropWhile isSpace)).get ⟨0, hl⟩ =
      (l.dropWhile isSpace).get ⟨0, hlen⟩ := by
    simp only [List.get_eq_getElem]
    exact hpre.getElem hl
  rw [hget]
  exact List.dropWhile_get_zero_not isSpace l hlen

lemma pyStrip_idem (l : List Char) : pyStrip (pyStrip l) = pyStrip l := by
  simp only [pyStrip]
  rw [lstrip_rstrip_lstrip, rstrip_idem]

lemma data_mk (l : List Char) : (⟨l⟩ : String).data = l := rfl

lemma pyStripS_idem (s : String) : pyStripS (pyStripS s) = pyStripS s := by
  simp only [pyStripS, data_mk, pyStrip_idem]

lemma normalizeCell_num (q : ℚ) : normalizeCell (Cell.num q) = Cell.num q := rfl

lemma normalizeCell_missing : normalizeCell Cell.missing = Cell.missing := rfl

lemma normalizeCell_of_not_str {c : Cell} (h : cellIsStr c = false) :
    normalizeCell c = c := by
  cases c with
  | num q => rfl
  | str s => simp [cellIsStr] at h
  | missing => rfl

lemma step1Cell_str (v : String) :
    step1Cell (Cell.str v) =
      if isPlaceholder (pyStripS v) then Cell.missing else Cell.str (pyStripS v) := rfl

lemma step2Cell_missing : step2Cell Cell.missing = Cell.missing := rfl

lemma step2Cell_str_some {v : String} {q : ℚ} (h : step2Parse v = some q) :
    step2Cell (Cell.str v) = Cell.num q := by
  simp [step2Cell, h]

lemma step2Cell_str_none {v : String} (h : step2Parse v = none) :
    step2Cell (Cell.str v) = Cell.str v := by
  simp [step2Cell, h]

/-- A textual cell matching a placeholder after stripping, case
insensitively, normalizes to missing. -/
lemma normalizeCell_str_placeholder {v : String} (h : isPlaceholder (pyStripS v) = true) :
    normalizeCell (Cell.str v) = Cell.missing := by
  unfold normalizeCell
  rw [step1Cell_str, if_pos h, step2Cell_missing]

/-- A non-placeholder textual cell whose candidate parses normalizes
to the parsed number. -/
lemma normalizeCell_str_parsed {v : String} {q : ℚ}
    (hp : isPlaceholder (pyStripS v) = false) (h2 : step2Parse (pyStripS v) = some q) :
    normalizeCell (Cell.str v) = Cell.num q := by
  unfold normalizeCell
  rw [step1Cell_str, if_neg (by simp [hp]), step2Cell_str_some h2]

/-- A non-placeholder textual cell whose candidate fails to parse is
kept as its stripped self (the value produced by the placeholder
pass). -/
lemma normalizeCell_str_kept {v : String}
    (hp : isPlaceholder (pyStripS v) = false) (h2 : step2Parse (pyStripS v) = none) :
    normalizeCell (Cell.str v) = Cell.str (pyStripS v) := by
  unfold normalizeCell
  rw [step1Cell_str, if_neg (by simp [hp]), step2Cell_str_none h2]

/-- The dtype gate of `normalize_strings` is behaviorally invisible:
on any column the function acts cellwise. -/
lemma normalizeCol_eq_map (cells : List Cell) :
    normalizeCol cells = cells.map normalizeCell := by
  unfold normalizeCol
  split
  · rw [List.map_map]
    rfl
  · next h =>
    have hall : ∀ c ∈ cells, cellIsStr c = false := by
      intro c hc
      cases hcs : cellIsStr c
      · rfl
      · exact absurd (List.any_eq_true.mpr ⟨c, hc, hcs⟩) h
    exact (calc cells.map normalizeCell = cells.map id :=
            List.map_congr_left (fun c hc => normalizeCell_of_not_str (hall c hc))
      _ = cells := List.map_id cells).symm

lemma normalizeCell_idem (c : Cell) : normalizeCell (normalizeCell c) = normalizeCell c := by
  cases c with
  | num q => rfl
  | missing => rfl
  | str v =>
    cases hp : isPlaceholder (pyStripS v) with
    | true => rw [normalizeCell_str_placeholder hp, normalizeCell_missing]
    | false =>
      rcases h2 : step2Parse (pyStripS v) with _ | q
      · rw [normalizeCell_str_kept hp h2]
        have hp2 : isPlaceholder (pyStripS (pyStripS v)) = false := by
          rw [pyStripS_idem]; exact hp
        have h22 : step2Parse (pyStripS (pyStripS v)) = none := by
          rw [pyStripS_idem]; exact h2
        rw [normalizeCell_str_kept hp2 h22, pyStripS_idem]
      · rw [normalizeCell_str_parsed hp h2, normalizeCell_num]

lemma normalizeCol_idem (cells : List Cell) :
    normalizeCol (normalizeCol cells) = normalizeCol cells := by
  simp only [normalizeCol_eq_map, List.map_map]
  exact List.map_congr_left (fun c _ => normalizeCell_idem c)

lemma normalize_strings_idem (df : DF) :
    normalize_strings (normalize_strings df) = normalize_strings df := by
  unfold normalize_strings
  simp only [List.map_map]
  congr 1
  exact List.map_congr_left (fun p _ => by simp [Function.comp, normalizeCol_idem])

/-! ### Lemmas about round-half-to-even and the score map -/

lemma le_roundHalfEven (x : ℚ) : ⌊x⌋ ≤ roundHalfEven x := by
  unfold roundHalfEven
  split_ifs <;> omega

lemma roundHalfEven_le (x : ℚ) : roundHalfEven x ≤ ⌊x⌋ + 1 := by
  unfold roundHalfEven
  split_ifs <;> omega

lemma roundHalfEven_mono {x y : ℚ} (h : x ≤ y) :
    roundHalfEven x ≤ roundHalfEven y := by
  have hf : ⌊x⌋ ≤ ⌊y⌋ := Int.floor_le_floor h
  rcases lt_or_le ⌊x⌋ ⌊y⌋ with hlt | hle
  · have h1 := roundHalfEven_le x
    have h2 := le_roundHalfEven y
    omega
  · have heq : ⌊x⌋ = ⌊y⌋ := le_antisymm hf hle
    have hcast : (⌊x⌋ : ℚ) = (⌊y⌋ : ℚ) := by exact_mod_cast heq
    have hfr : Int.fract x ≤ Int.fract y := by
      simp only [Int.fract]
      linarith
    unfold roundHalfEven
    rw [heq]
    split_ifs <;> first | omega | linarith

lemma roundHalfEven_intCast (m : ℤ) : roundHalfEven (m : ℚ) = m := by
  unfold roundHalfEven
  rw [Int.fract_intCast, Int.floor_intCast]
  norm_num

/-- Reflection law for round-half-to-even: subtracting from an even
integer commutes with rounding.  This is what makes
`900 - round(p*600)` agree with `round(900 - p*600)`. -/
lemma roundHalfEven_int_sub (n : ℤ) (hn : Even n) (x : ℚ) :
    roundHalfEven ((n : ℚ) - x) = n - roundHalfEven x := by
  by_cases h0 : Int.fract x = 0
  · have hx : x = (⌊x⌋ : ℚ) := by
      have := Int.floor_add_fract x
      rw [h0, add_zero] at this
      exact this.symm
    have hsub : (n : ℚ) - x = ((n - ⌊x⌋ : ℤ) : ℚ) := by
      push_cast
      rw [← hx]
    rw [hsub, roundHalfEven_intCast]
    unfold roundHalfEven
    rw [if_pos (by rw [h0]; norm_num)]
  · have hfr0 : 0 < Int.fract x := lt_of_le_of_ne (Int.fract_nonneg x) (Ne.symm h0)
    have hfr1 : Int.fract x < 1 := Int.fract_lt_one x
    have hx1 : (⌊x⌋ : ℚ) ≤ x := Int.floor_le x
    have hx2 : x < ⌊x⌋ + 1 := Int.lt_floor_add_one x
    have hx3 : (⌊x⌋ : ℚ) < x := by
      have : Int.fract x = x - ⌊x⌋ := rfl
      linarith [hfr0.trans_le (le_of_eq this)]
    have hfl : ⌊(n : ℚ) - x⌋ = n - ⌊x⌋ - 1 := by
      rw [Int.floor_eq_iff]
      constructor
      · push_cast
        linarith
      · push_cast
        linarith
    have hfr2 : Int.fract ((n : ℚ) - x) = 1 - Int.fract x := by
      simp only [Int.fract, hfl]
      push_cast
      ring
    unfold roundHalfEven
    rw [hfl, hfr2]
    rcases lt_trichotomy (Int.fract x) (1 / 2) with hc | hc | hc
    · have c1 : ¬(1 - Int.fract x < 1 / 2) := not_lt.mpr (by linarith)
      have c2 : (1 : ℚ) / 2 < 1 - Int.fract x := by linarith
      rw [if_neg c1, if_pos c2, if_pos hc]
      omega
    · have c1 : ¬(1 - Int.fract x < 1 / 2) := not_lt.mpr (by linarith)
      have c2 : ¬((1 : ℚ) / 2 < 1 - Int.fract x) := not_lt.mpr (by linarith)
      have c3 : ¬(Int.fract x < 1 / 2) := not_lt.mpr (by linarith)
      have c4 : ¬((1 : ℚ) / 2 < Int.fract x) := not_lt.mpr (by linarith)
      rw [if_neg c1, if_neg c2, if_neg c3, if_neg c4]
      by_cases he : Even ⌊x⌋
      · have hodd : ¬Even (n - ⌊x⌋ - 1) := by
          simp only [Int.even_iff] at hn he ⊢
          omega
        rw [if_neg hodd, if_pos he]
        omega
      · have heven : Even (n - ⌊x⌋ - 1) := by
          simp only [Int.even_iff] at hn he ⊢
          omega
        rw [if_pos heven, if_neg he]
        omega
    · have c1 : 1 - Int.fract x < 1 / 2 := by linarith
      have c3 : ¬(Int.fract x < 1 / 2) := not_lt.mpr (by linarith)
      rw [if_pos c1, if_neg c3, if_pos hc]
      omega

lemma pd_to_score_antitone {p q : ℚ} (h : p ≤ q) : pd_to_score q ≤ pd_to_score p := by
  unfold pd_to_score
  have hm : roundHalfEven (p * 600) ≤ roundHalfEven (q * 600) :=
    roundHalfEven_mono (by linarith)
  have : 900 - roundHalfEven (q * 600) ≤ 900 - roundHalfEven (p * 600) := by omega
  exact max_le_max (le_refl 300) (min_le_min (le_refl 900) this)

lemma pd_to_score_bounds (p : ℚ) : 300 ≤ pd_to_score p ∧ pd_to_score p ≤ 900 := by
  unfold pd_to_score
  constructor
  · exact le_max_left _ _
  · exact max_le (by norm_num) (min_le_left _ _)

/-! ### Lemmas about the DataFrame pipeline -/

lemma lookup_map_val {β γ : Type} (f : String → β → γ) (l : List (String × β)) (n : String) :
    List.lookup n (l.map (fun p => (p.1, f p.1 p.2))) = (List.lookup n l).map (f n) := by
  induction l with
  | nil => rfl
  | cons a t ih =>
    rcases a with ⟨k, v⟩
    by_cases h : n = k
    · subst h
      simp [List.lookup_cons]
    · have hb : (n == k) = false := beq_false_of_ne h
      simp [List.lookup_cons, hb, ih]

lemma columns_normalize_strings (df : DF) :
    (normalize_strings df).columns = df.columns := by
  simp [normalize_strings, DF.columns, List.map_map, Function.comp]

lemma columns_cast_schema (fo : List String) (df : DF) :
    (cast_schema fo df).columns = df.columns := by
  simp [cast_schema, DF.columns, List.map_map, Function.comp]

lemma columns_selectCols (fo : List String) (df : DF) :
    (selectCols fo df).columns = fo := by
  show (fo.map fun n => (n, (df.getCol n).getD [])).map Prod.fst = fo
  rw [List.map_map]
  exact List.map_id'' (fun _ => rfl) fo

lemma getCol_normalize_strings (df : DF) (n : String) :
    (normalize_strings df).getCol n = (df.getCol n).map normalizeCol := by
  exact lookup_map_val (fun _ c => normalizeCol c) df.cols n

lemma getCol_cast_schema (fo : List String) (df : DF) (n : String) :
    (cast_schema fo df).getCol n = (df.getCol n).map (castCol fo n) := by
  exact lookup_map_val (castCol fo) df.cols n

lemma castNumCell_not_str (c : Cell) : cellIsStr (castNumCell c) = false := by
  cases c with
  | num q => rfl
  | missing => rfl
  | str s =>
    rcases hp : parseNumeric s with _ | q <;> simp [castNumCell, hp, cellIsStr]

lemma castNumCell_num (c : Cell) : ∃ q, castNumCell c = Cell.num q := by
  cases c with
  | num q => exact ⟨q, rfl⟩
  | missing => exact ⟨0, rfl⟩
  | str s =>
    rcases hp : parseNumeric s with _ | q
    · exact ⟨0, by simp [castNumCell, hp]⟩
    · exact ⟨q, by simp [castNumCell, hp]⟩

lemma isNumericDtype_map_castNum (cells : List Cell) :
    isNumericDtype (cells.map castNumCell) = true := by
  rw [isNumericDtype, List.all_eq_true]
  intro c hc
  rw [List.mem_map] at hc
  obtain ⟨a, _, rfl⟩ := hc
  simp [castNumCell_not_str]

/-- After `cast_schema`, no declared-numeric column present in the
frame can fail the dtype check. -/
lemma wrong_after_cast (fo : List String) (df : DF) :
    (cast_schema fo df).cols.filter
      (fun p => NUMERIC_FEATURES.contains p.1 && !isNumericDtype p.2) = [] := by
  rw [List.filter_eq_nil_iff]
  intro p hp
  rw [cast_schema] at hp
  simp only [List.mem_map] at hp
  obtain ⟨⟨name, cells⟩, _, rfl⟩ := hp
  by_cases hn : NUMERIC_FEATURES.contains name
  · have hcast : castCol fo name cells = cells.map castNumCell := by
      rw [castCol, if_pos hn]
    simp [hcast, isNumericDtype_map_castNum]
  · rw [Bool.and_eq_true]
    rintro ⟨h1, _⟩
    exact hn h1

/-- On a cast frame, `validate_dtypes` reduces to the missing-column
check alone. -/
lemma validate_after_cast (fo : List String) (df : DF) :
    validate_dtypes fo (cast_schema fo df) =
      (if !(if fo.isEmpty then []
            else fo.filter
              (fun c => !(DF.columns (cast_schema fo df)).contains c)).isEmpty
       then Except.error (Err.missingColumnsValidate
              (fo.filter (fun c => !(DF.columns (cast_schema fo df)).contains c)))
       else Except.ok ()) := by
  unfold validate_dtypes
  rw [wrong_after_cast]
  by_cases hfo : fo.isEmpty
  · simp [hfo]
  · simp only [hfo, if_false, Bool.not_eq_true']
    split <;> simp_all

lemma preprocess_ok_cast {fo : List String} {rows : List Record} {df4 : DF}
    (h : preprocess fo rows = Except.ok df4) : ∃ base, df4 = cast_schema fo base := by
  unfold preprocess at h
  by_cases hfo : fo.isEmpty
  · rw [if_pos hfo] at h
    simp only [Except.ok.injEq] at h
    exact ⟨_, h.symm⟩
  · rw [if_neg hfo] at h
    by_cases hm : (missingOf fo rows).isEmpty
    · rw [if_pos hm] at h
      simp only [Except.ok.injEq] at h
      exact ⟨_, h.symm⟩
    · rw [if_neg hm] at h
      simp at h

lemma preprocess_error_shape {fo : List String} {rows : List Record} {e : Err}
    (h : preprocess fo rows = Except.error e) :
    e = Err.missingColumns
          (fo.filter (fun c =>
            !(DF.columns (normalize_strings (dropLabels (toDF rows)))).contains c)) fo := by
  unfold preprocess at h
  by_cases hfo : fo.isEmpty
  · rw [if_pos hfo] at h
    simp at h
  · rw [if_neg hfo] at h
    by_cases hm : (missingOf fo rows).isEmpty
    · rw [if_pos hm] at h
      simp at h
    · rw [if_neg hm] at h
      simp only [Except.error.injEq] at h
      exact h.symm

lemma nrows_preprocess {fo : List String} {rows : List Record} {df4 : DF}
    (h : preprocess fo rows = Except.ok df4) : df4.nrows = rows.length := by
  unfold preprocess at h
  by_cases hfo : fo.isEmpty
  · rw [if_pos hfo] at h
    simp only [Except.ok.injEq] at h
    rw [← h]
    rfl
  · rw [if_neg hfo] at h
    by_cases hm : (missingOf fo rows).isEmpty
    · rw [if_pos hm] at h
      simp only [Except.ok.injEq] at h
      rw [← h]
      rfl
    · rw [if_neg hm] at h
      simp at h

lemma preprocess_with_missing {fo : List String} {rows : List Record}
    (hfo : fo.isEmpty = false) (hm : (missingOf fo rows).isEmpty = false) :
    preprocess fo rows = Except.error (Err.missingColumns (missingOf fo rows) fo) := by
  unfold preprocess
  simp only [hfo, Bool.false_eq_true, if_false, hm]

lemma preprocess_without_missing {fo : List String} {rows : List Record}
    (hfo : fo.isEmpty = false) (hm : (missingOf fo rows).isEmpty = true) :
    preprocess fo rows =
      Except.ok (cast_schema fo
        (selectCols fo (normalize_strings (dropLabels (toDF rows))))) := by
  unfold preprocess
  simp only [hfo, Bool.false_eq_true, if_false, hm, if_true]

/-- After a successful column selection, the validator's own
missing-column check passes: the cast frame's columns are exactly the
feature order. -/
lemma validate_missing_after_select (fo : List String) (df : DF) :
    fo.filter (fun c =>
      !(DF.columns (cast_schema fo (selectCols fo df))).contains c) = [] := by
  rw [List.filter_eq_nil_iff]
  intro c hc
  rw [columns_cast_schema, columns_selectCols]
  simp [hc]

lemma predict_missing_payload {fo : List String} {scorer : Scorer} {rows : List Record}
    (hfo : fo.isEmpty = false) (hr : rows.isEmpty = false)
    (hm : (missingOf fo rows).isEmpty = false) :
    predict fo scorer rows = Except.error (Err.missingColumns (missingOf fo rows) fo) := by
  unfold predict
  simp only [hr, Bool.false_eq_true, if_false, preprocess_with_missing hfo hm]

lemma predict_no_missing_error {fo : List String} {scorer : Scorer} {rows : List Record}
    (hfo : fo.isEmpty = false) (hr : rows.isEmpty = false)
    (hm : (missingOf fo rows).isEmpty = true) (miss exp : List String) :
    predict fo scorer rows ≠ Except.error (Err.missingColumns miss exp) := by
  unfold predict
  simp only [hr, Bool.false_eq_true, if_false, preprocess_without_missing hfo hm]
  rw [validate_after_cast]
  simp only [hfo, Bool.false_eq_true, if_false, validate_missing_after_select,
    List.isEmpty_nil, Bool.not_true, Bool.false_eq_true, if_false]
  cases scorer (cast_schema fo (selectCols fo (normalize_strings (dropLabels (toDF rows))))) <;>
    simp

/-! ### Lemmas for the label-dropping frame property -/

lemma lookup_filter_key {β : Type} (p : String → Bool) (l : List (String × β)) (n : String) :
    List.lookup n (l.filter (fun pr => p pr.1)) =
      if p n then List.lookup n l else none := by
  induction l with
  | nil => cases hp : p n <;> simp [hp]
  | cons a t ih =>
    rcases a with ⟨k, v⟩
    by_cases hnk : n = k
    · subst hnk
      cases hp : p n <;> simp [List.filter_cons, hp, List.lookup_cons, ih]
    · have hb : (n == k) = false := beq_false_of_ne hnk
      cases hp : p k <;> simp [List.filter_cons, hp, List.lookup_cons, hb, ih]

lemma lookup_append_single {β : Type} (r : List (String × β)) (l k : String) (v : β)
    (h : k ≠ l) : List.lookup k (r ++ [(l, v)]) = List.lookup k r := by
  induction r with
  | nil => simp [List.lookup_cons, beq_false_of_ne h]
  | cons a t ih =>
    rcases a with ⟨ka, va⟩
    by_cases hk : k = ka
    · subst hk
      simp [List.lookup_cons]
    · simp [List.lookup_cons, beq_false_of_ne hk, ih]

lemma userIdOf_append (r : Record) (l : String) (v : Cell)
    (h : ("user_id" : String) ≠ l) : userIdOf (r ++ [(l, v)]) = userIdOf r := by
  unfold userIdOf
  rw [lookup_append_single r l "user_id" v h]

lemma contains_append_single (x : List String) (k m : String) :
    (x ++ [k]).contains m = (x.contains m || m == k) := by
  rw [List.contains_eq_any_beq, List.contains_eq_any_beq, List.any_append]
  simp

/-- One dedup-insert step of column inference preserves the
label-free part of the accumulator and membership of label-free
names. -/
lemma addKey_inv (p : String → Bool) (k : String) (acc acc' : List String)
    (h1 : acc'.filter p = acc.filter p)
    (h2 : ∀ m, p m = true → acc'.contains m = acc.contains m) :
    ((if acc'.contains k then acc' else acc' ++ [k]).filter p =
      (if acc.contains k then acc else acc ++ [k]).filter p) ∧
    (∀ m, p m = true →
      (if acc'.contains k then acc' else acc' ++ [k]).contains m =
        (if acc.contains k then acc else acc ++ [k]).contains m) := by
  cases hpk : p k with
  | true =>
    rw [h2 k hpk]
    cases hcc : acc.contains k with
    | true =>
      rw [if_pos rfl, if_pos rfl]
      exact ⟨h1, h2⟩
    | false =>
      rw [if_neg Bool.false_ne_true, if_neg Bool.false_ne_true]
      constructor
      · rw [List.filter_append, List.filter_append, h1]
      · intro m hm
        rw [contains_append_single, contains_append_single, h2 m hm]
  | false =>
    have hf : ∀ x : List String,
        (if x.contains k then x else x ++ [k]).filter p = x.filter p := by
      intro x
      split
      · rfl
      · rw [List.filter_append]
        simp [List.filter_cons, hpk]
    have hc : ∀ (x : List String) m, p m = true →
        (if x.contains k then x else x ++ [k]).contains m = x.contains m := by
      intro x m hm
      have hmk : (m == k) = false := by
        refine beq_false_of_ne ?_
        intro hmk
        rw [hmk, hpk] at hm
        cases hm
      split
      · rfl
      · rw [contains_append_single, hmk, Bool.or_false]
    constructor
    · rw [hf, hf, h1]
    · intro m hm
      rw [hc _ m hm, hc _ m hm, h2 m hm]

/-- Folding a record's keys into two accumulators that agree on their
label-free parts keeps them agreeing. -/
lemma addRowKeys_inv (p : String → Bool) (r : Record) :
    ∀ (acc acc' : List String),
      acc'.filter p = acc.filter p →
      (∀ m, p m = true → acc'.contains m = acc.contains m) →
      ((addRowKeys acc' r).filter p = (addRowKeys acc r).filter p ∧
        ∀ m, p m = true → (addRowKeys acc' r).contains m = (addRowKeys acc r).contains m) := by
  induction r with
  | nil => exact fun acc acc' h1 h2 => ⟨h1, h2⟩
  | cons kv t ih =>
    intro acc acc' h1 h2
    simp only [addRowKeys, List.foldl_cons]
    have hstep := addKey_inv p kv.1 acc acc' h1 h2
    exact ih _ _ hstep.1 hstep.2

/-- Appending a label-named key to every record does not change the
label-free part of the inferred column names. -/
lemma colNames_append_filter (p : String → Bool) (l : String) (v : Cell)
    (hl : p l = false) (rows : List Record) :
    ∀ (acc acc' : List String),
      acc'.filter p = acc.filter p →
      (∀ m, p m = true → acc'.contains m = acc.contains m) →
      (((rows.map (fun r => r ++ [(l, v)])).foldl addRowKeys acc').filter p =
          (rows.foldl addRowKeys acc).filter p ∧
        ∀ m, p m = true →
          ((rows.map (fun r => r ++ [(l, v)])).foldl addRowKeys acc').contains m =
            (rows.foldl addRowKeys acc).contains m) := by
  induction rows with
  | nil => exact fun acc acc' h1 h2 => ⟨h1, h2⟩
  | cons r t ih =>
    intro acc acc' h1 h2
    simp only [List.map_cons, List.foldl_cons]
    have hrow := addRowKeys_inv p r acc acc' h1 h2
    have hkey : addRowKeys acc' (r ++ [(l, v)]) =
        (if (addRowKeys acc' r).contains l then addRowKeys acc' r
         else addRowKeys acc' r ++ [l]) := by
      simp only [addRowKeys, List.foldl_append, List.foldl_cons, List.foldl_nil]
    rw [hkey]
    have hstep := addKey_inv p l (addRowKeys acc r) (addRowKeys acc' r) hrow.1 hrow.2
    refine ih _ _ ?_ ?_
    · rw [hstep.1]
      have : (if (addRowKeys acc r).contains l then addRowKeys acc r
          else addRowKeys acc r ++ [l]).filter p = (addRowKeys acc r).filter p := by
        split
        · rfl
        · rw [List.filter_append]
          simp [List.filter_cons, hl]
      rw [this]
    · intro m hm
      rw [hstep.2 m hm]
      have hmk : (m == l) = false := by
        refine beq_false_of_ne ?_
        intro hml
        rw [hml, hl] at hm
        cases hm
      split
      · rfl
      · rw [contains_append_single, hmk, Bool.or_false]

lemma filter_map_pair (p : String → Bool) (g : String → List Cell) (l : List String) :
    (l.map (fun n => (n, g n))).filter (fun pr => p pr.1) =
      (l.filter p).map (fun n => (n, g n)) := by
  induction l with
  | nil => rfl
  | cons a t ih =>
    by_cases hp : p a <;> simp [List.filter_cons, hp, ih]

/-- Appending a label-named column to every record changes nothing
once the label columns are dropped. -/
lemma dropLabels_toDF_append (l : String) (v : Cell) (hl : labelCols.contains l = true)
    (rows : List Record) :
    dropLabels (toDF (rows.map (fun r => r ++ [(l, v)]))) = dropLabels (toDF rows) := by
  have hkeep : (fun n => !labelCols.contains n) l = false := by
    show (!labelCols.contains l) = false
    rw [hl]
    rfl
  unfold dropLabels toDF
  simp only [List.length_map]
  congr 1
  rw [filter_map_pair (fun n => !labelCols.contains n), filter_map_pair
    (fun n => !labelCols.contains n)]
  have hnames := (colNames_append_filter (fun n => !labelCols.contains n) l v hkeep rows
    [] [] rfl (fun _ _ => rfl)).1
  rw [show colNamesOf (rows.map (fun r => r ++ [(l, v)])) =
      (rows.map (fun r => r ++ [(l, v)])).foldl addRowKeys [] from rfl,
    show colNamesOf rows = rows.foldl addRowKeys [] from rfl, hnames]
  refine List.map_congr_left ?_
  intro n hn
  have hp : (!labelCols.contains n) = true := (List.mem_filter.mp hn).2
  have hnl : n ≠ l := by
    intro hnl
    rw [hnl, hl] at hp
    cases hp
  congr 1
  rw [List.map_map]
  refine List.map_congr_left ?_
  intro r _
  simp only [Function.comp]
  rw [lookup_append_single r l n v hnl]

/-! ### Claim theorems -/

/-- C2: `normalize_strings` maps "₹1,200" to 1200.0, "12%" to 0.12,
"$5.20" to 5.20, and "n/a", "NULL", "", " None " to missing;
placeholder matching is case-insensitive after stripping, and percent
scaling is applied only after symbol stripping, "%" removal and a
successful numeric parse. -/
theorem normalizer_round_trip :
    normalizeCol [Cell.str "₹1,200"] = [Cell.num 1200] ∧
    normalizeCol [Cell.str "12%"] = [Cell.num 0.12] ∧
    normalizeCol [Cell.str "$5.20"] = [Cell.num 5.20] ∧
    normalizeCol [Cell.str "n/a"] = [Cell.missing] ∧
    normalizeCol [Cell.str "NULL"] = [Cell.missing] ∧
    normalizeCol [Cell.str ""] = [Cell.missing] ∧
    normalizeCol [Cell.str " None "] = [Cell.missing] ∧
    (∀ v, isPlaceholder (pyStripS v) = true → normalizeCell (Cell.str v) = Cell.missing) ∧
    (∀ v q, isPlaceholder (pyStripS v) = false →
      endsWithPercent (removeMoneyChars (pyStripS v)) = true →
      parseNumeric (dropLastChar (removeMoneyChars (pyStripS v))) = some q →
      normalizeCell (Cell.str v) = Cell.num (q / 100)) := by
  refine ⟨?_, ?_, ?_, by decide, by decide, by decide, by decide, ?_, ?_⟩
  · have hstep : step2Parse (pyStripS "₹1,200") = some 1200 := by
      simp only [step2Parse]
      rw [pyStripS_idem,
        show removeMoneyChars (pyStripS "₹1,200") = "1200" from by decide,
        show endsWithPercent "1200" = false from by decide]
      simp only [Bool.false_eq_true, if_false, parseNumeric,
        show parseFloatParts (pyStrip "1200".data) =
          some ⟨false, ['1', '2', '0', '0'], [], false, []⟩ from by decide,
        Option.map_some', Option.some.injEq, ratOfParts,
        show natOfDigits ['1', '2', '0', '0'] = 1200 from by decide,
        show natOfDigits ([] : List Char) = 0 from by decide]
      norm_num
    rw [normalizeCol_eq_map, List.map_cons, List.map_nil,
      normalizeCell_str_parsed (by decide) hstep]
  · have hstep : step2Parse (pyStripS "12%") = some 0.12 := by
      simp only [step2Parse]
      rw [pyStripS_idem,
        show removeMoneyChars (pyStripS "12%") = "12%" from by decide,
        show endsWithPercent "12%" = true from by decide]
      simp only [if_true, show dropLastChar "12%" = "12" from by decide, parseNumeric,
        show parseFloatParts (pyStrip "12".data) =
          some ⟨false, ['1', '2'], [], false, []⟩ from by decide,
        Option.map_some', Option.some.injEq, ratOfParts,
        show natOfDigits ['1', '2'] = 12 from by decide,
        show natOfDigits ([] : List Char) = 0 from by decide]
      norm_num
    rw [normalizeCol_eq_map, List.map_cons, List.map_nil,
      normalizeCell_str_parsed (by decide) hstep]
  · have hstep : step2Parse (pyStripS "$5.20") = some 5.20 := by
      simp only [step2Parse]
      rw [pyStripS_idem,
        show removeMoneyChars (pyStripS "$5.20") = "5.20" from by decide,
        show endsWithPercent "5.20" = false from by decide]
      simp only [Bool.false_eq_true, if_false, parseNumeric,
        show parseFloatParts (pyStrip "5.20".data) =
          some ⟨false, ['5'], ['2', '0'], false, []⟩ from by decide,
        Option.map_some', Option.some.injEq, ratOfParts,
        show natOfDigits ['5'] = 5 from by decide,
        show natOfDigits ['2', '0'] = 20 from by decide,
        show natOfDigits ([] : List Char) = 0 from by decide]
      norm_num
    rw [normalizeCol_eq_map, List.map_cons, List.map_nil,
      normalizeCell_str_parsed (by decide) hstep]
  · intro v hp
    exact normalizeCell_str_placeholder hp
  · intro v q hp hpct hparse
    refine normalizeCell_str_parsed hp ?_
    simp only [step2Parse]
    rw [pyStripS_idem]
    simp only [hpct, if_true, hparse, Option.map_some']

/-- C2 witness: a concrete application of the general percent clause
(note the inner space survives symbol stripping, and the trailing
stripped "12 " still parses). -/
theorem normalizer_round_trip_witness :
    normalizeCell (Cell.str " 12 % ") = Cell.num (12 / 100) :=
  normalizer_round_trip.2.2.2.2.2.2.2.2 " 12 % " 12 (by decide) (by decide) (by
    simp only [show dropLastChar (removeMoneyChars (pyStripS " 12 % ")) = "12 " from by decide,
      parseNumeric,
      show parseFloatParts (pyStrip "12 ".data) =
        some ⟨false, ['1', '2'], [], false, []⟩ from by decide,
      Option.map_some', Option.some.injEq, ratOfParts,
      show natOfDigits ['1', '2'] = 12 from by decide,
      show natOfDigits ([] : List Char) = 0 from by decide]
    norm_num)

/-- C3: after `cast_schema`, every declared-numeric column present in
the batch is cast cellwise to numbers, with missing or unparsable
cells becoming 0.0; every declared-categorical column present has its
missing cells replaced by the literal "unknown". -/
theorem cast_schema_fill :
    (∀ fo df n cells, df.getCol n = some cells →
      (cast_schema fo df).getCol n = some (castCol fo n cells)) ∧
    (∀ fo n cells, NUMERIC_FEATURES.contains n = true →
      castCol fo n cells = cells.map castNumCell) ∧
    (∀ fo n cells, NUMERIC_FEATURES.contains n = false →
      (categoricalFeatures fo).contains n = true →
      castCol fo n cells = cells.map castCatCell) ∧
    (∀ c, ∃ q, castNumCell c = Cell.num q) ∧
    castNumCell Cell.missing = Cell.num 0 ∧
    (∀ s, parseNumeric s = none → castNumCell (Cell.str s) = Cell.num 0) ∧
    castCatCell Cell.missing = Cell.str "unknown" := by
  refine ⟨?_, ?_, ?_, castNumCell_num, rfl, ?_, rfl⟩
  · intro fo df n cells h
    rw [getCol_cast_schema, h, Option.map_some']
  · intro fo n cells hn
    rw [castCol, if_pos hn]
  · intro fo n cells hn hc
    rw [castCol, if_neg (by rw [hn]; decide), if_pos hc]
  · intro s hp
    simp [castNumCell, hp]

/-- C3 witness: a numeric column with a missing cell and an unparsable
cell fills with 0.0, and a categorical column with a missing cell
fills with "unknown". -/
theorem cast_schema_fill_witness :
    castCol [] "age" [Cell.missing, Cell.str "abc", Cell.str "45"] =
      [Cell.num 0, Cell.num 0, Cell.num 45] ∧
    castCol [] "location" [Cell.missing, Cell.str "Pune"] =
      [Cell.str "unknown", Cell.str "Pune"] := by
  constructor
  · have h45 : parseNumeric "45" = some 45 := by
      simp only [parseNumeric,
        show parseFloatParts (pyStrip "45".data) =
          some ⟨false, ['4', '5'], [], false, []⟩ from by decide,
        Option.map_some', Option.some.injEq, ratOfParts,
        show natOfDigits ['4', '5'] = 45 from by decide,
        show natOfDigits ([] : List Char) = 0 from by decide]
      norm_num
    rw [cast_schema_fill.2.1 [] "age" _ (by decide)]
    simp only [List.map_cons, List.map_nil, castNumCell,
      show parseNumeric "abc" = none from by decide, h45]
  · rw [cast_schema_fill.2.2.1 [] "location" _ (by decide) (by decide)]
    decide

/-- C4: `band` returns "Very Low" iff p < 0.10, "Low" iff
0.10 ≤ p < 0.20, "Medium" iff 0.20 ≤ p < 0.35, "High" iff
0.35 ≤ p < 0.50, "Very High" iff p ≥ 0.50; in particular
`band 0.10 = "Low"`. -/
theorem band_characterization : ∀ p : ℚ,
    ((band p = "Very Low") ↔ p < 0.10) ∧
    ((band p = "Low") ↔ 0.10 ≤ p ∧ p < 0.20) ∧
    ((band p = "Medium") ↔ 0.20 ≤ p ∧ p < 0.35) ∧
    ((band p = "High") ↔ 0.35 ≤ p ∧ p < 0.50) ∧
    ((band p = "Very High") ↔ 0.50 ≤ p) ∧
    band 0.10 = "Low" := by
  intro p
  refine ⟨?_, ?_, ?_, ?_, ?_, by norm_num [band]⟩ <;>
    (unfold band; split_ifs) <;>
    constructor <;>
    intro hh <;>
    first
      | rfl
      | linarith
      | (exact ⟨by linarith, by linarith⟩)
      | (simp at hh)

/-- C5: `pd_to_score p` equals round(900 − p·600) (round half to
even) clamped to [300, 900]; the endpoints map to 900 and 300, the
result is always within [300, 900] for any rational input, and the
score is non-increasing in p. -/
theorem pd_to_score_spec :
    (∀ p : ℚ, pd_to_score p = max 300 (min 900 (roundHalfEven ((900 : ℚ) - p * 600)))) ∧
    pd_to_score 0 = 900 ∧
    pd_to_score 1 = 300 ∧
    (∀ p : ℚ, 300 ≤ pd_to_score p ∧ pd_to_score p ≤ 900) ∧
    (∀ p q : ℚ, p ≤ q → pd_to_score q ≤ pd_to_score p) := by
  refine ⟨?_, ?_, ?_, pd_to_score_bounds, fun p q h => pd_to_score_antitone h⟩
  · intro p
    have h := roundHalfEven_int_sub 900 (by decide) (p * 600)
    push_cast at h
    rw [pd_to_score, h]
  · rw [pd_to_score, show ((0 : ℚ) * 600) = ((0 : ℤ) : ℚ) from by norm_num,
      roundHalfEven_intCast]
    decide
  · rw [pd_to_score, show ((1 : ℚ) * 600) = ((600 : ℤ) : ℚ) from by norm_num,
      roundHalfEven_intCast]
    decide

/-- C5 witness: monotonicity at the endpoints. -/
theorem pd_to_score_spec_witness :
    (0 : ℚ) ≤ 1 ∧ pd_to_score 1 ≤ pd_to_score 0 :=
  ⟨by norm_num, pd_to_score_spec.2.2.2.2 0 1 (by norm_num)⟩

/-- C6: the placeholder normalizer is idempotent on every batch. -/
theorem placeholder_normalizer_idempotent (df : DF) :
    normalize_strings (normalize_strings df) = normalize_strings df :=
  normalize_strings_idem df

/-- C7: normalization is per-cell (cellwise on every column, hence
independent of other cells and total — it never fails a batch), and a
cell whose candidate string fails to parse keeps its
placeholder-normalized value unchanged. -/
theorem normalizer_per_cell :
    (∀ cells, normalizeCol cells = cells.map normalizeCell) ∧
    (∀ c t, step1Cell c = Cell.str t → step2Parse t = none →
      normalizeCell c = Cell.str t) ∧
    (∀ v, isPlaceholder (pyStripS v) = false → step2Parse (pyStripS v) = none →
      normalizeCell (Cell.str v) = step1Cell (Cell.str v)) := by
  refine ⟨normalizeCol_eq_map, ?_, ?_⟩
  · intro c t h1 h2
    cases c with
    | num q => simp [step1Cell] at h1
    | missing => simp [step1Cell] at h1
    | str v =>
      rw [step1Cell_str] at h1
      by_cases hp : isPlaceholder (pyStripS v)
      · rw [if_pos hp] at h1
        cases h1
      · rw [if_neg hp] at h1
        obtain rfl : pyStripS v = t := by
          cases h1
          rfl
        have hp' : isPlaceholder (pyStripS v) = false := by
          cases hpc : isPlaceholder (pyStripS v)
          · rfl
          · exact absurd hpc hp
        rw [normalizeCell_str_kept hp' h2]
  · intro v hp h2
    rw [normalizeCell_str_kept hp h2, step1Cell_str, if_neg (by simp [hp])]

/-- C7 witness: an unparsable non-placeholder cell is retained as its
stripped self. -/
theorem normalizer_per_cell_witness :
    normalizeCell (Cell.str "hello") = step1Cell (Cell.str "hello") :=
  normalizer_per_cell.2.2 "hello" (by decide) (by decide)

/-- C1: when the scoring adapter produces one probability per row, a
successful `predict` on a non-empty batch returns exactly one result
per input row, in input order, and the i-th identifier is the i-th
input row's "user_id" (stringified) or "" when absent. -/
theorem predict_results_align (fo : List String) (scorer : Scorer)
    (hs : ∀ df ps, scorer df = Except.ok ps → ps.length = df.nrows)
    (rows : List Record) (hr : rows ≠ []) (res : List Result)
    (hok : predict fo scorer rows = Except.ok res) :
    res.length = rows.length ∧
    ∀ i (h1 : i < res.length) (h2 : i < rows.length),
      (res.get ⟨i, h1⟩).user_id = userIdOf (rows.get ⟨i, h2⟩) := by
  have hre : rows.isEmpty = false := by simpa using hr
  unfold predict at hok
  simp only [hre, Bool.false_eq_true, if_false] at hok
  cases hpre : preprocess fo rows with
  | error e =>
    rw [hpre] at hok
    simp at hok
  | ok df4 =>
    rw [hpre] at hok
    dsimp only at hok
    cases hval : validate_dtypes fo df4 with
    | error e =>
      rw [hval] at hok
      simp at hok
    | ok u =>
      rw [hval] at hok
      cases hsc : scorer df4 with
      | error msg =>
        rw [hsc] at hok
        simp at hok
      | ok ps =>
        rw [hsc] at hok
        simp only [Except.ok.injEq] at hok
        subst hok
        have hplen : ps.length = rows.length := by
          rw [hs df4 ps hsc, nrows_preprocess hpre]
        constructor
        · simp [List.length_zip, hplen]
        · intro i h1 h2
          simp only [List.get_eq_getElem, List.getElem_map, List.getElem_zip]
          rfl

/-- C1 witness: a one-row batch with a "user_id" scores into one
result carrying that identifier. -/
theorem predict_results_align_witness :
    predict [] wScorer wRows =
      Except.ok [{ user_id := "u1", pd := 0, risk_band := band 0,
                   credit_score := pd_to_score 0 }] ∧
    ([{ user_id := "u1", pd := 0, risk_band := band 0,
        credit_score := pd_to_score 0 }] : List Result).length = wRows.length := by
  have hpred : predict [] wScorer wRows =
      Except.ok [{ user_id := "u1", pd := 0, risk_band := band 0,
                   credit_score := pd_to_score 0 }] := rfl
  refine ⟨hpred, ?_⟩
  exact (predict_results_align [] wScorer
    (fun df ps h => by
      simp only [wScorer, Except.ok.injEq] at h
      rw [← h, List.length_replicate])
    wRows (by decide) _ hpred).1

/-- C8: with a known non-empty feature order, `predict` on a
non-empty batch fails with a MissingColumns error exactly when some
required column is absent after normalization, and the error payload
carries both the exact missing names and the full expected order. -/
theorem predict_missing_columns (fo : List String) (scorer : Scorer) (rows : List Record)
    (hfo : fo ≠ []) (hr : rows ≠ []) :
    ((∃ miss exp, predict fo scorer rows = Except.error (Err.missingColumns miss exp)) ↔
      missingOf fo rows ≠ []) ∧
    (missingOf fo rows ≠ [] →
      predict fo scorer rows = Except.error (Err.missingColumns (missingOf fo rows) fo)) := by
  have hfoe : fo.isEmpty = false := by simpa using hfo
  have hre : rows.isEmpty = false := by simpa using hr
  have hpay : missingOf fo rows ≠ [] →
      predict fo scorer rows = Except.error (Err.missingColumns (missingOf fo rows) fo) := by
    intro hm
    exact predict_missing_payload hfoe hre (by simpa using hm)
  refine ⟨⟨?_, fun hm => ⟨_, _, hpay hm⟩⟩, hpay⟩
  rintro ⟨miss, exp, hp⟩
  intro hmnil
  exact predict_no_missing_error hfoe hre (by simp [hmnil]) miss exp hp

/-- C8 witness: required order ["age", "location"], one row holding
only "age": the request fails naming exactly "location" and echoing
the full expected order. -/
theorem predict_missing_columns_witness :
    predict ["age", "location"] wScorer [[("age", Cell.num 30)]] =
      Except.error (Err.missingColumns ["location"] ["age", "location"]) := by
  have h := (predict_missing_columns ["age", "location"] wScorer [[("age", Cell.num 30)]]
    (by decide) (by decide)).2 (by decide)
  rwa [show missingOf ["age", "location"] [[("age", Cell.num 30)]] = ["location"]
    from by decide] at h

/-- C10: the TypeMismatch branch of validation is unreachable in the
predict pipeline — `cast_schema` leaves every declared-numeric column
numeric, so the post-cast dtype check always passes and validation of
a cast frame can only fail for missing columns. -/
theorem typeMismatch_unreachable :
    (∀ fo scorer rows, isTypeMismatchErr (predict fo scorer rows) = false) ∧
    (∀ fo df, (cast_schema fo df).cols.filter
        (fun p => NUMERIC_FEATURES.contains p.1 && !isNumericDtype p.2) = []) ∧
    (∀ fo df, validate_dtypes fo (cast_schema fo df) = Except.ok () ∨
      validate_dtypes fo (cast_schema fo df) =
        Except.error (Err.missingColumnsValidate
          (fo.filter (fun c => !(DF.columns (cast_schema fo df)).contains c)))) := by
  refine ⟨?_, wrong_after_cast, ?_⟩
  · intro fo scorer rows
    unfold predict
    by_cases hre : rows.isEmpty
    · rw [if_pos hre]
      rfl
    · rw [if_neg hre]
      cases hpre : preprocess fo rows with
      | error e =>
        rw [preprocess_error_shape hpre]
        rfl
      | ok df4 =>
        obtain ⟨base, rfl⟩ := preprocess_ok_cast hpre
        dsimp only
        rw [validate_after_cast]
        by_cases hc : (if fo.isEmpty then []
            else fo.filter
              (fun c => !(DF.columns (cast_schema fo base)).contains c)).isEmpty
        · simp only [hc, Bool.not_true, Bool.false_eq_true, if_false]
          cases scorer (cast_schema fo base) <;> rfl
        · simp only [Bool.not_eq_true] at hc
          simp only [hc, Bool.not_false, if_true]
          rfl
  · intro fo df
    rw [validate_after_cast]
    by_cases hfo : fo.isEmpty
    · left
      simp [hfo]
    · by_cases hm : (fo.filter
          (fun c => !(DF.columns (cast_schema fo df)).contains c)).isEmpty
      · left
        simp only [hfo, Bool.false_eq_true, if_false, hm, Bool.not_true,
          Bool.false_eq_true, if_false]
      · right
        simp only [hfo, Bool.false_eq_true, if_false, Bool.not_eq_true] at hm ⊢
        simp only [hm, Bool.not_false, if_true]

/-- C9: every column named "default_flag", "target" or "label" is
removed by the dropping step, all other columns are unaffected by it,
and adding such a column to every record never causes an error — the
whole predict outcome is unchanged. -/
theorem label_leak_stripping :
    (∀ df n, labelCols.contains n = true → (dropLabels df).getCol n = none) ∧
    (∀ df n, labelCols.contains n = false → (dropLabels df).getCol n = df.getCol n) ∧
    (∀ l v fo scorer rows, labelCols.contains l = true →
      predict fo scorer (rows.map (fun r => r ++ [(l, v)])) = predict fo scorer rows) := by
  refine ⟨?_, ?_, ?_⟩
  · intro df n hn
    have hq := lookup_filter_key (fun m => !labelCols.contains m) df.cols n
    simp only [hn, Bool.not_true, Bool.false_eq_true, if_false] at hq
    exact hq
  · intro df n hn
    have hq := lookup_filter_key (fun m => !labelCols.contains m) df.cols n
    simp only [hn, Bool.not_false, if_true] at hq
    exact hq
  · intro l v fo scorer rows hl
    have hdf := dropLabels_toDF_append l v hl rows
    have hmiss : missingOf fo (rows.map (fun r => r ++ [(l, v)])) = missingOf fo rows := by
      unfold missingOf
      rw [hdf]
    have hpre : preprocess fo (rows.map (fun r => r ++ [(l, v)])) = preprocess fo rows := by
      unfold preprocess
      rw [hdf, hmiss]
    have hne : ("user_id" : String) ≠ l := by
      have hmem : l = "default_flag" ∨ l = "target" ∨ l = "label" := by
        simpa [labelCols] using hl
      rcases hmem with h | h | h <;> subst h <;> decide
    unfold predict
    rw [hpre, show (rows.map (fun r => r ++ [(l, v)])).isEmpty = rows.isEmpty from by
      cases rows <;> rfl]
    cases preprocess fo rows with
    | error e => rfl
    | ok df4 =>
      dsimp only
      cases validate_dtypes fo df4 with
      | error e => rfl
      | ok u =>
        dsimp only
        cases scorer df4 with
        | error msg => rfl
        | ok ps =>
          dsimp only
          rw [List.zip_map_left, List.map_map]
          have hzip : List.map (mkResult ∘ Prod.map (fun r => r ++ [(l, v)]) id)
              (rows.zip ps) = List.map mkResult (rows.zip ps) := by
            refine List.map_congr_left ?_
            intro pr _
            rcases pr with ⟨r, q⟩
            simp only [Function.comp, Prod.map_apply, id]
            show mkResult (r ++ [(l, v)], q) = mkResult (r, q)
            unfold mkResult
            rw [userIdOf_append r l v hne]
          rw [hzip]

/-- C9 witness: appending "target": 1 to the witness row leaves the
predict outcome unchanged. -/
theorem label_leak_stripping_witness :
    predict [] wScorer (wRows.map (fun r => r ++ [("target", Cell.num 1)])) =
      predict [] wScorer wRows :=
  label_leak_stripping.2.2 "target" (Cell.num 1) [] wScorer wRows (by decide)

end FinShield
